import Mathlib

/-!
Verification of `scripts/changed_settings.py`: a CLI tool that compares a JSON
settings-schema file between two tags of a repository and prints a markdown
report of added, changed and removed configuration keys plus a unified diff.

The development shallowly embeds the script's pure core:

* flattened schemas are association lists from configuration keys to
  configuration descriptors (Python dicts preserve insertion order, so an
  ordered association list with unique keys is the faithful model);
* the zip archive is a list of (entry name, decoded text) pairs;
* external collaborators (the network fetch, the `jq` query engine,
  `json.loads` for the translations file and `difflib`) are passed in as
  values or functions, exactly at the boundary where the script invokes them.

Python string operations that the script relies on (`split`, `replace`,
`rstrip`, `str.join`) are re-implemented over character lists by structural
recursion so that every definition evaluates inside the kernel.
-/

namespace ChangedSettings

/-- A scalar JSON value, the shape of the `default` field of a configuration
descriptor (`bool | int | str | None` in the script's `Configuration`
TypedDict). -/
inductive JsonValue where
  | null : JsonValue
  | bool (b : Bool) : JsonValue
  | num (n : Int) : JsonValue
  | str (s : String) : JsonValue
deriving DecidableEq

/-- The `Configuration` TypedDict of `changed_settings.py`: one settings-schema
descriptor. `markdownDescription` is optional at runtime (the script tests
membership with `in` before reading it), so it is modelled as an `Option`;
comparing two descriptors compares every field, including the
presence/absence of the optional one, which models Python's structural
equality of the underlying dicts. -/
structure Configuration where
  type : String
  default : JsonValue
  description : String
  markdownDescription : Option String
deriving DecidableEq

/-- A flattened settings schema (`ConfigurationsDict`): the dict produced by
one `jq` invocation, as an insertion-ordered association list. -/
abbrev FlatMap := List (String × Configuration)

/-- The key sequence of a flattened schema, in iteration order. -/
def keys (m : FlatMap) : List String := m.map Prod.fst

/-- Python's `key in dict`. -/
def hasKey (m : FlatMap) (k : String) : Bool := m.any (fun kv => decide (kv.1 = k))

/-- Python's `dict[key]`, as an `Option` (keys of a Python dict are unique, so
the first binding is the binding). -/
def getVal (m : FlatMap) (k : String) : Option Configuration :=
  (m.find? (fun kv => decide (kv.1 = k))).map Prod.snd

/-- `compare_json` from `changed_settings.py` (lines 96-111), taking the two
`jq` outputs as inputs (`jq` is an external query engine; the script feeds it
each raw text and parses its stdout). The Python loop iterates
`flatten_settings_2` in order, inserting each fresh key into `added` and each
key whose value differs from `flatten_settings_1[key]` into `changed`; since
every key occurs once, the two result dicts are ordered filters of
`flatten_settings_2`. `removed` is the list comprehension over
`flatten_settings_1`. -/
def compare_json (flatten_settings_1 flatten_settings_2 : FlatMap) :
    FlatMap × FlatMap × List String :=
  let removed : List String :=
    (flatten_settings_1.filter (fun kv => !hasKey flatten_settings_2 kv.1)).map Prod.fst
  let added : FlatMap :=
    flatten_settings_2.filter (fun kv => !hasKey flatten_settings_1 kv.1)
  let changed : FlatMap :=
    flatten_settings_2.filter
      (fun kv => hasKey flatten_settings_1 kv.1
        && decide (some kv.2 ≠ getVal flatten_settings_1 kv.1))
  (added, changed, removed)

/-- Python's `sep.join(list)`. -/
def str_join (sep : String) : List String → String
  | [] => ""
  | [x] => x
  | x :: y :: xs => x ++ sep ++ str_join sep (y :: xs)

/-- One lowercase hexadecimal digit, for JSON `\uXXXX` escapes. -/
def hex_digit (n : Nat) : Char :=
  if n < 10 then Char.ofNat (48 + n) else Char.ofNat (87 + (n % 16))

/-- Four lowercase hexadecimal digits. -/
def hex4 (n : Nat) : String :=
  String.mk [hex_digit (n / 4096 % 16), hex_digit (n / 256 % 16),
             hex_digit (n / 16 % 16), hex_digit (n % 16)]

/-- How Python's `json.dumps` (default `ensure_ascii=True`) escapes one
character inside a string literal: the two-character escapes for quote,
backslash and common control characters, `\uXXXX` for other characters
outside the printable ASCII range, surrogate pairs above the BMP. -/
def json_escape_char (c : Char) : String :=
  if c = '"' then ("\\\"")
  else if c = '\\' then ("\\\\")
  else if c = '\n' then ("\\n")
  else if c = '\r' then ("\\r")
  else if c = '\t' then ("\\t")
  else if c.toNat = 8 then ("\\b")
  else if c.toNat = 12 then ("\\f")
  else if c.toNat < 32 || c.toNat ≥ 127 then
    if c.toNat < 65536 then ("\\u") ++ hex4 c.toNat
    else
      "\\u" ++ hex4 (55296 + (c.toNat - 65536) / 1024)
        ++ "\\u" ++ hex4 (56320 + (c.toNat - 65536) % 1024)
  else String.mk [c]

/-- `json.dumps` on a Python `str`: a quoted, escaped string literal. -/
def json_escape_string (s : String) : String :=
  "\"" ++ String.join (s.data.map json_escape_char) ++ "\""

/-- `json_serialize` (= `json.dumps(contents, indent=2)`) on a scalar value —
the shape it receives for a translation string and for a descriptor's
`default` field; `indent` does not affect scalars. -/
def json_serialize (v : JsonValue) : String :=
  match v with
  | JsonValue.null => "null"
  | JsonValue.bool true => "true"
  | JsonValue.bool false => "false"
  | JsonValue.num n => toString n
  | JsonValue.str s => json_escape_string s

/-- The fields of one descriptor in declaration order, each rendered, with the
optional `markdownDescription` omitted when absent — the key/value pairs
`json.dumps` walks when serializing the underlying dict. -/
def json_serialize_config_fields (c : Configuration) : List (String × String) :=
  [("type", json_escape_string c.type),
   ("default", json_serialize c.default),
   ("description", json_escape_string c.description)]
  ++ (match c.markdownDescription with
      | some md => [("markdownDescription", json_escape_string md)]
      | none => [])

/-- `json_serialize` (= `json.dumps(contents, indent=2)`) on a dict of
descriptors, as used for the `added` and `changed` dicts: 2-space indentation
per nesting level. -/
def json_serialize_configs (m : FlatMap) : String :=
  match m with
  | [] => "\x7b\x7d"
  | _ =>
    "\x7b\n"
      ++ str_join (",\n")
        (m.map (fun kv =>
          "  " ++ json_escape_string kv.1 ++ ": \x7b\n"
            ++ str_join (",\n")
              ((json_serialize_config_fields kv.2).map
                (fun f => "    " ++ json_escape_string f.1 ++ ": " ++ f.2))
            ++ "\n  \x7d"))
      ++ "\n\x7d"

/-- Splitting a character list at every occurrence of a separator character;
`split_char_data sep cs` always has one more part than there are separators. -/
def split_char_data (sep : Char) : List Char → List (List Char)
  | [] => [[]]
  | c :: rest =>
    match split_char_data sep rest with
    | [] => [[]]
    | s :: ss => if c = sep then [] :: s :: ss else (c :: s) :: ss

/-- Python's `s.split(sep)` for a one-character separator. -/
def split_char (sep : Char) (s : String) : List String :=
  (split_char_data sep s.data).map String.mk

/-- Python's `s.split('\n')`, as used on the two raw schema texts. -/
def split_newlines (s : String) : List String := split_char '\n' s

/-- Python's `str.splitlines` for text whose line terminators are `'\n'` (the
shape of the descriptions the script wraps): no entry after a trailing
newline, and the empty string has no lines. -/
def splitlines (s : String) : List String :=
  if s = "" then []
  else
    let parts := split_newlines s
    if parts.getLast? = some ("") then parts.dropLast else parts

/-- Python whitespace for `str.rstrip` (ASCII: space, tab, newline, carriage
return, vertical tab, form feed). -/
def python_whitespace (c : Char) : Bool :=
  c = ' ' || c = '\t' || c = '\n' || c = '\r' || c.toNat = 11 || c.toNat = 12

/-- Python's `s.rstrip()`. -/
def rstrip (s : String) : String :=
  String.mk ((s.data.reverse.dropWhile python_whitespace).reverse)

/-- `generate_sublime_settings_markdown` (lines 86-93): for each key, a
comment block (one `// `-prefixed, right-stripped line per line of the richer
description when present, else the plain description) followed by the key and
its pretty-printed default, entries joined by blank lines, wrapped in a
fenced code block. -/
def generate_sublime_settings_markdown (settings : FlatMap) : String :=
  let sublime_settings : List String :=
    settings.map (fun kv =>
      let description : String :=
        match kv.2.markdownDescription with
        | some md => md
        | none => kv.2.description
      let wrapped_description : String :=
        str_join ("\n") ((splitlines description).map (fun line => rstrip ("// " ++ line)))
      wrapped_description ++ "\n\"" ++ kv.1 ++ "\": " ++ json_serialize kv.2.default ++ ",")
  "```\n" ++ str_join ("\n\n") sublime_settings ++ "\n```"

/-- `markdown_collapsible_section` (lines 123-130): the `<details>` disclosure
markup with blank lines around the summary and body. -/
def markdown_collapsible_section (summary contents : String) : String :=
  "<details>\n\n<summary>" ++ summary ++ "</summary>\n\n" ++ contents ++ "\n\n</details>"

/-- The `key_list` local of `main` (line 184): the removed keys rendered as
one ``' - `key`'`` bullet line each, joined by newlines. -/
def removed_key_list (removed : List String) : String :=
  str_join ("\n") (removed.map (fun k => " - `" ++ k ++ "`"))

/-- The removed-keys section of `main` (line 185), a literal transcription of
the f-string `f'Removed keys (\x24\x7blen(key_list)\x7d):\n\x7bkey_list\x7d'`: a literal
dollar sign, then the character length of the rendered bullet-list string. -/
def removed_keys_section (removed : List String) : String :=
  "Removed keys ($" ++ toString (removed_key_list removed).length ++ "):\n"
    ++ removed_key_list removed

/-- The added-keys section of `main` (lines 173-176). -/
def added_section (added : FlatMap) : String :=
  markdown_collapsible_section ("Added keys (" ++ toString added.length ++ ")")
    ("```json\n" ++ json_serialize_configs added ++ "\n```\n"
      ++ generate_sublime_settings_markdown added)

/-- The changed-keys section of `main` (lines 178-181). -/
def changed_section (changed : FlatMap) : String :=
  markdown_collapsible_section ("Changed keys (" ++ toString changed.length ++ ")")
    ("```json\n" ++ json_serialize_configs changed ++ "\n```\n"
      ++ generate_sublime_settings_markdown changed)

/-- A `+`/`-`/`' '`-prefixed line-level edit script between two line lists. -/
def diffScript : List String → List String → List String
  | [], ys => ys.map (fun y => "+" ++ y)
  | x :: xs, [] => ("-" ++ x) :: diffScript xs []
  | x :: xs, y :: ys =>
    if x = y then (" " ++ x) :: diffScript xs ys
    else ("-" ++ x) :: ("+" ++ y) :: diffScript xs ys

/-- Modelled from the spec: `difflib.unified_diff` (Python standard library,
not part of this repository). Per section 4.4 of the specification the diff is
computed over the two texts split on newlines, labeled with the two tag names
as the from/to file labels, with no trailing line terminators
(`lineterm=''`), and yields nothing at all when the two line sequences are
equal; otherwise it yields the two `---`/`+++` file-label header lines
followed by `+`/`-`/`' '`-prefixed lines. Hunk grouping and `@@` range
headers are not modelled: the development relies only on the output being
empty exactly when the two line sequences are equal. -/
def unified_diff (a b : List String) (fromfile tofile : String) : List String :=
  if a = b then []
  else ("--- " ++ fromfile) :: ("+++ " ++ tofile) :: diffScript a b

/-- The `schema_url` local of `main` (line 164). -/
def schema_url (repository_url tag_to configuration_file_path : String) : String :=
  repository_url ++ "/blob/" ++ tag_to ++ configuration_file_path

/-- The intro sentence of the report (lines 165-168). -/
def intro_sentence (repository_url configuration_file_path tag_from tag_to : String) :
    String :=
  "Following are the [settings schema]("
    ++ schema_url repository_url tag_to configuration_file_path
    ++ ") changes between tags `" ++ tag_from ++ "` and `" ++ tag_to
    ++ "`. Make sure that those are reflected in the package settings and "
    ++ "`sublime-package.json`.\n"

/-- The report-assembly tail of `main` (lines 157-191), starting from the two
decoded configuration texts; `jq` stands for one invocation of the external
query engine with the fixed query argument (text on stdin, flattened mapping
on stdout). When the joined unified diff is non-empty (`if diff:`), the key
diff runs and each non-empty section is appended; otherwise only the literal
`No changes` line follows the intro sentence. The final report joins the
sections with blank lines. -/
def main_output (jq : String → FlatMap)
    (repository_url configuration_file_path tag_from tag_to : String)
    (configuration_1 configuration_2 : String) : String :=
  let diff : String :=
    str_join ("\n")
      (unified_diff (split_newlines configuration_1) (split_newlines configuration_2)
        tag_from tag_to)
  let output : List String :=
    if diff = "" then
      [intro_sentence repository_url configuration_file_path tag_from tag_to,
       "No changes"]
    else
      let acr := compare_json (jq configuration_1) (jq configuration_2)
      [intro_sentence repository_url configuration_file_path tag_from tag_to]
        ++ (if acr.1 = [] then [] else [added_section acr.1])
        ++ (if acr.2.1 = [] then [] else [changed_section acr.2.1])
        ++ (if acr.2.2 = [] then [] else [removed_keys_section acr.2.2])
        ++ [markdown_collapsible_section ("All changes in schema")
              ("```diff\n" ++ diff ++ "\n```")]
  str_join ("\n\n") output

/-- A zip archive: the entry names in central-directory order, each with the
decoded text the script would read after extracting it. -/
structure ZipFile where
  entries : List (String × String)

/-- `zip_file.namelist()`. -/
def namelist (z : ZipFile) : List String := z.entries.map Prod.fst

/-- Python's `name.split('/')[0]`: the first path component. -/
def first_component (name : String) : String :=
  String.mk (name.data.takeWhile (fun c => c != '/'))

/-- `get_parent_directory` (lines 67-83): collect the first path component of
every non-empty entry name into a set; if the set has exactly one element,
return it, else `None`. (The set is modelled by deduplicating the list of
components; which duplicate survives is irrelevant when there is exactly
one distinct component.) -/
def get_parent_directory (z : ZipFile) : Option String :=
  let top_levels : List String :=
    (((namelist z).filter (fun n => decide (n ≠ ""))).map first_component).dedup
  match top_levels with
  | [t] => some t
  | _ => none

/-- The `archive_path` local of `read_file_from_zip` (line 59):
`f'\x7bparent_name\x7d/\x7bpath\x7d' if parent_name else path` — note that both `None`
and the empty string are falsy in Python. -/
def target_path (z : ZipFile) (path : String) : String :=
  match get_parent_directory z with
  | some parent_name => if parent_name = "" then path else parent_name ++ "/" ++ path
  | none => path

/-- `zip_file.extract` followed by `read_text`: the decoded text of the named
entry. -/
def extract (z : ZipFile) (filepath : String) : Option String :=
  (z.entries.find? (fun e => decide (e.1 = filepath))).map Prod.snd

/-- `read_file_from_zip` (lines 57-64): find the first entry name equal to the
(optionally prefixed) target path — `next((p for p in zip_file.namelist() if
archive_path == p), None)` is an exact string comparison — return `None` when
nothing (or a falsy, i.e. empty, name) was found, else the entry's text. -/
def read_file_from_zip (z : ZipFile) (path : String) : Option String :=
  let archive_path := target_path z path
  match (namelist z).find? (fun p => decide (archive_path = p)) with
  | none => none
  | some filepath => if filepath = "" then none else extract z filepath

/-- The index of the last `'.'` in a character list (Python's `rfind`),
`none` when absent. -/
def rfind_dot (cs : List Char) : Option Nat :=
  match cs.reverse.findIdx? (fun c => c == '.') with
  | some j => some (cs.length - 1 - j)
  | none => none

/-- `str(PurePosixPath(configuration_path).with_suffix('.nls.json'))` (line
48) for an already-normalized POSIX path: in the final path component, drop
the part from the last `'.'` onwards when that dot is neither the first nor
the last character of the component (pathlib's definition of the suffix), and
append `.nls.json`. -/
def with_suffix_nls (p : String) : String :=
  let parts := split_char '/' p
  let name := (parts.getLast?).getD p
  let cs := name.data
  let stem : String :=
    match rfind_dot cs with
    | some i => if 0 < i ∧ i < cs.length - 1 then String.mk (cs.take i) else name
    | none => name
  str_join ("/") (parts.dropLast ++ [stem ++ (".nls.json")])

/-- Python's `s.replace(old, new)` over character lists: scan left to right,
replacing each (non-overlapping) occurrence of a non-empty `pat`. The `Nat`
argument is structural-recursion fuel; every step consumes at least one
character, so `s.length` steps always suffice. -/
def replace_go : Nat → List Char → List Char → List Char → List Char
  | 0, s, _, _ => s
  | fuel + 1, s, pat, rep =>
    match s with
    | [] => []
    | c :: rest =>
      if !pat.isEmpty && pat.isPrefixOf s then
        rep ++ replace_go fuel (s.drop pat.length) pat rep
      else
        c :: replace_go fuel rest pat rep

/-- Python's `s.replace(old, new)`. -/
def str_replace (s pat rep : String) : String :=
  String.mk (replace_go s.data.length s.data pat.data rep.data)

/-- The translation-substitution loop of `read_configuration_file` (lines
52-53): for each translation entry in iteration order, replace every
occurrence of the quoted `"%key%"` placeholder with the JSON-escaped
serialization of the replacement string. -/
def substitute_translations (configuration : String)
    (translations_json : List (String × String)) : String :=
  translations_json.foldl
    (fun conf kv =>
      str_replace conf ("\"%" ++ kv.1 ++ "%\"") (json_serialize (JsonValue.str kv.2)))
    configuration

/-- `read_configuration_file` (lines 42-54). `parse` stands for `json.loads`
restricted to flat string-to-string objects (`none` models a raised
`JSONDecodeError`, whose message does not mention the configuration path).
The primary file must exist — otherwise the run fails with an error naming
the missing path; the translations sibling is optional, and a falsy (empty)
translations text also skips substitution (`if translations:`). -/
def read_configuration_file (parse : String → Option (List (String × String)))
    (z : ZipFile) (configuration_path : String) : Except String String :=
  match read_file_from_zip z configuration_path with
  | none => Except.error ("Archive does not contain expected file " ++ configuration_path)
  | some configuration =>
    let translations_path := with_suffix_nls configuration_path
    match read_file_from_zip z translations_path with
    | none => Except.ok configuration
    | some translations =>
      if translations = "" then Except.ok configuration
      else
        match parse translations with
        | none => Except.error ("Invalid JSON in translations file")
        | some translations_json =>
          Except.ok (substitute_translations configuration translations_json)

/-- A key that is "unchanged" between two flattened schemas: present in both
with equal descriptors. -/
def unchanged_key (f1 f2 : FlatMap) (k : String) : Prop :=
  k ∈ keys f1 ∧ k ∈ keys f2 ∧ getVal f1 k = getVal f2 k

/-- The specification's partition property for `compare_json` applied to an
older schema `f1` and a newer schema `f2`: every added key is new, every
removed key is gone, every changed key is common with unequal descriptors,
and every key of either schema falls into exactly one of the four buckets
added / changed / removed / unchanged. -/
def compare_json_is_partition (f1 f2 : FlatMap) : Prop :=
  (∀ k ∈ keys (compare_json f1 f2).1, k ∈ keys f2 ∧ k ∉ keys f1)
  ∧ (∀ k ∈ (compare_json f1 f2).2.2, k ∈ keys f1 ∧ k ∉ keys f2)
  ∧ (∀ k ∈ keys (compare_json f1 f2).2.1,
      k ∈ keys f1 ∧ k ∈ keys f2 ∧ getVal f1 k ≠ getVal f2 k)
  ∧ (∀ k, (k ∈ keys f1 ∨ k ∈ keys f2) →
      ((k ∈ keys (compare_json f1 f2).1 ∧ k ∉ keys (compare_json f1 f2).2.1
          ∧ k ∉ (compare_json f1 f2).2.2 ∧ ¬ unchanged_key f1 f2 k)
      ∨ (k ∉ keys (compare_json f1 f2).1 ∧ k ∈ keys (compare_json f1 f2).2.1
          ∧ k ∉ (compare_json f1 f2).2.2 ∧ ¬ unchanged_key f1 f2 k)
      ∨ (k ∉ keys (compare_json f1 f2).1 ∧ k ∉ keys (compare_json f1 f2).2.1
          ∧ k ∈ (compare_json f1 f2).2.2 ∧ ¬ unchanged_key f1 f2 k)
      ∨ (k ∉ keys (compare_json f1 f2).1 ∧ k ∉ keys (compare_json f1 f2).2.1
          ∧ k ∉ (compare_json f1 f2).2.2 ∧ unchanged_key f1 f2 k)))

/-- A sample configuration descriptor, used as concrete test data. -/
def sample_config : Configuration :=
  ⟨"string", JsonValue.str ("x"), "enables x", none⟩

/-- The same descriptor as `sample_config` but with the optional
`markdownDescription` field present — differing from `sample_config` only in
the presence of that optional field. -/
def sample_config_rich : Configuration :=
  ⟨"string", JsonValue.str ("x"), "enables x", some ("enables *x*")⟩

/-- A second, unrelated sample descriptor. -/
def sample_config_2 : Configuration :=
  ⟨"boolean", JsonValue.bool true, "toggles y", none⟩

/-! ## Basic lemmas about the flattened-schema operations -/

theorem mem_keys_iff {m : FlatMap} {k : String} : k ∈ keys m ↔ ∃ v, (k, v) ∈ m := by
  constructor
  · intro h
    rcases List.mem_map.mp h with ⟨⟨a, b⟩, hm, rfl⟩
    exact ⟨b, hm⟩
  · rintro ⟨v, hv⟩
    exact List.mem_map.mpr ⟨(k, v), hv, rfl⟩

theorem hasKey_iff {m : FlatMap} {k : String} : hasKey m k = true ↔ k ∈ keys m := by
  rw [hasKey, List.any_eq_true]
  constructor
  · rintro ⟨⟨a, b⟩, hm, hk⟩
    have ha : a = k := of_decide_eq_true hk
    subst ha
    exact mem_keys_iff.mpr ⟨b, hm⟩
  · intro h
    rcases mem_keys_iff.mp h with ⟨v, hv⟩
    exact ⟨(k, v), hv, by simp⟩

theorem hasKey_eq_false_iff {m : FlatMap} {k : String} :
    hasKey m k = false ↔ k ∉ keys m := by
  rw [← hasKey_iff]
  cases hasKey m k <;> simp

theorem getVal_isSome_iff {m : FlatMap} {k : String} :
    (getVal m k).isSome = true ↔ k ∈ keys m := by
  rw [getVal, Option.isSome_map', List.find?_isSome]
  constructor
  · rintro ⟨⟨a, b⟩, hm, hk⟩
    have ha : a = k := of_decide_eq_true hk
    subst ha
    exact mem_keys_iff.mpr ⟨b, hm⟩
  · intro h
    rcases mem_keys_iff.mp h with ⟨v, hv⟩
    exact ⟨(k, v), hv, by simp⟩

theorem getVal_eq_none_iff {m : FlatMap} {k : String} :
    getVal m k = none ↔ k ∉ keys m := by
  rw [← getVal_isSome_iff]
  cases getVal m k <;> simp

theorem mem_of_getVal_eq_some {m : FlatMap} {k : String} {v : Configuration}
    (h : getVal m k = some v) : (k, v) ∈ m := by
  rw [getVal, Option.map_eq_some'] at h
  rcases h with ⟨kv, hfind, hsnd⟩
  have hp := List.find?_some hfind
  have h1 : kv.1 = k := of_decide_eq_true hp
  have h2 : kv ∈ m := List.mem_of_find?_eq_some hfind
  have hkv : kv = (k, v) := by
    cases kv
    simp_all
  rwa [hkv] at h2

theorem getVal_eq_some_of_mem :
    ∀ {m : FlatMap} {k : String} {v : Configuration},
      (keys m).Nodup → (k, v) ∈ m → getVal m k = some v := by
  intro m
  induction m with
  | nil => intro k v _ h; cases h
  | cons kv rest ih =>
    intro k v hnd hmem
    have hnd' : kv.1 ∉ keys rest ∧ (keys rest).Nodup := by
      simpa [keys] using hnd
    by_cases hk : kv.1 = k
    · have hval : kv.2 = v := by
        rcases List.mem_cons.mp hmem with h | h
        · rw [← h]
        · exact absurd (mem_keys_iff.mpr ⟨v, h⟩) (hk ▸ hnd'.1)
      rw [getVal, List.find?_cons_of_pos _ (by simp [hk]), Option.map_some', hval]
    · have hmem' : (k, v) ∈ rest := by
        rcases List.mem_cons.mp hmem with h | h
        · exact absurd (congrArg Prod.fst h.symm) hk
        · exact h
      rw [getVal, List.find?_cons_of_neg _ (by simp [hk])]
      exact ih hnd'.2 hmem'

/-! ## Characterizations of the three `compare_json` outputs -/

theorem added_mem_iff {f1 f2 : FlatMap} {k : String} :
    k ∈ keys (compare_json f1 f2).1 ↔ k ∈ keys f2 ∧ k ∉ keys f1 := by
  rw [compare_json]
  constructor
  · intro h
    rcases mem_keys_iff.mp h with ⟨v, hv⟩
    have := List.mem_filter.mp hv
    refine ⟨mem_keys_iff.mpr ⟨v, this.1⟩, ?_⟩
    have : hasKey f1 k = false := by simpa using this.2
    exact hasKey_eq_false_iff.mp this
  · rintro ⟨h2, h1⟩
    rcases mem_keys_iff.mp h2 with ⟨v, hv⟩
    exact mem_keys_iff.mpr ⟨v, List.mem_filter.mpr ⟨hv, by simp [hasKey_eq_false_iff.mpr h1]⟩⟩

theorem removed_mem_iff {f1 f2 : FlatMap} {k : String} :
    k ∈ (compare_json f1 f2).2.2 ↔ k ∈ keys f1 ∧ k ∉ keys f2 := by
  rw [compare_json]
  constructor
  · intro h
    rcases List.mem_map.mp h with ⟨⟨a, b⟩, hm, rfl⟩
    have := List.mem_filter.mp hm
    refine ⟨mem_keys_iff.mpr ⟨b, this.1⟩, ?_⟩
    have h2 : hasKey f2 a = false := by simpa using this.2
    exact hasKey_eq_false_iff.mp h2
  · rintro ⟨h1, h2⟩
    rcases mem_keys_iff.mp h1 with ⟨v, hv⟩
    exact List.mem_map.mpr
      ⟨(k, v), List.mem_filter.mpr ⟨hv, by simp [hasKey_eq_false_iff.mpr h2]⟩, rfl⟩

theorem changed_mem_iff {f1 f2 : FlatMap} {k : String} (h2 : (keys f2).Nodup) :
    k ∈ keys (compare_json f1 f2).2.1
      ↔ k ∈ keys f1 ∧ k ∈ keys f2 ∧ getVal f1 k ≠ getVal f2 k := by
  rw [compare_json]
  constructor
  · intro h
    rcases mem_keys_iff.mp h with ⟨v, hv⟩
    have hf := List.mem_filter.mp hv
    have hcond := hf.2
    simp only [Bool.and_eq_true, decide_eq_true_eq] at hcond
    refine ⟨hasKey_iff.mp hcond.1, mem_keys_iff.mpr ⟨v, hf.1⟩, ?_⟩
    rw [getVal_eq_some_of_mem h2 hf.1]
    exact fun hne => hcond.2 (by rw [← hne])
  · rintro ⟨hk1, hk2, hne⟩
    rcases mem_keys_iff.mp hk2 with ⟨v, hv⟩
    have hv2 : getVal f2 k = some v := getVal_eq_some_of_mem h2 hv
    refine mem_keys_iff.mpr ⟨v, List.mem_filter.mpr ⟨hv, ?_⟩⟩
    simp only [Bool.and_eq_true, decide_eq_true_eq]
    exact ⟨hasKey_iff.mpr hk1, fun he => hne (by rw [hv2]; exact he.symm)⟩

theorem compare_json_self {m : FlatMap} (h : (keys m).Nodup) :
    compare_json m m = ([], [], []) := by
  rw [compare_json]
  refine congrArg₂ _ ?_ (congrArg₂ _ ?_ ?_)
  · rw [List.filter_eq_nil_iff]
    intro kv hkv
    simp [hasKey_iff.mpr (mem_keys_iff.mpr ⟨kv.2, hkv⟩)]
  · rw [List.filter_eq_nil_iff]
    intro kv hkv
    have : getVal m kv.1 = some kv.2 := getVal_eq_some_of_mem h (by simpa using hkv)
    simp [this]
  · simp only [List.map_eq_nil_iff, List.filter_eq_nil_iff]
    intro kv hkv
    simp [hasKey_iff.mpr (mem_keys_iff.mpr ⟨kv.2, hkv⟩)]

/-- Claim C1: for every pair of flattened mappings A (older) and B (newer)
with unique keys, `compare_json` returns `(added, changed, removed)` such
that every added key is in B and not in A, every removed key is in A and not
in B, every changed key is in both with descriptors unequal under structural
equality over the whole descriptor (presence/absence of the optional field
included, since descriptor equality compares every field), and every key of
A ∪ B falls into exactly one of added, changed, removed, or unchanged. -/
theorem compare_json_partitions (f1 f2 : FlatMap)
    (h1 : (keys f1).Nodup) (h2 : (keys f2).Nodup) :
    compare_json_is_partition f1 f2 := by
  refine ⟨?_, ?_, ?_, ?_⟩
  · intro k hk
    exact added_mem_iff.mp hk
  · intro k hk
    exact removed_mem_iff.mp hk
  · intro k hk
    exact (changed_mem_iff h2).mp hk
  · intro k hk
    by_cases hk1 : k ∈ keys f1 <;> by_cases hk2 : k ∈ keys f2
    · by_cases hv : getVal f1 k = getVal f2 k
      · exact Or.inr (Or.inr (Or.inr
          ⟨fun h => (added_mem_iff.mp h).2 hk1,
           fun h => ((changed_mem_iff h2).mp h).2.2 hv,
           fun h => (removed_mem_iff.mp h).2 hk2,
           ⟨hk1, hk2, hv⟩⟩))
      · exact Or.inr (Or.inl
          ⟨fun h => (added_mem_iff.mp h).2 hk1,
           (changed_mem_iff h2).mpr ⟨hk1, hk2, hv⟩,
           fun h => (removed_mem_iff.mp h).2 hk2,
           fun h => hv h.2.2⟩)
    · exact Or.inr (Or.inr (Or.inl
        ⟨fun h => (added_mem_iff.mp h).2 hk1,
         fun h => hk2 ((changed_mem_iff h2).mp h).2.1,
         removed_mem_iff.mpr ⟨hk1, hk2⟩,
         fun h => hk2 h.2.1⟩))
    · exact Or.inl
        ⟨added_mem_iff.mpr ⟨hk2, hk1⟩,
         fun h => hk1 ((changed_mem_iff h2).mp h).1,
         fun h => hk1 (removed_mem_iff.mp h).1,
         fun h => hk1 h.1⟩
    · exact absurd hk (by simp [hk1, hk2])

/-- Witness for C1: the partition property evaluated on concrete schemas, one
key kept unchanged is absent from all three outputs, one key changed only in
the presence of the optional `markdownDescription` field lands in `changed`,
one key only in the older schema lands in `removed`, and one key only in
the newer schema lands in `added`. -/
theorem compare_json_partitions_witness :
    compare_json_is_partition
      [("a.x", sample_config), ("a.y", sample_config_2)]
      [("a.x", sample_config_rich), ("a.z", sample_config_2)] :=
  compare_json_partitions
    [("a.x", sample_config), ("a.y", sample_config_2)]
    [("a.x", sample_config_rich), ("a.z", sample_config_2)]
    (by decide) (by decide)

/-- Mapping `Prod.fst` over a filter whose predicate only inspects the key
commutes with filtering the key list. -/
theorem map_fst_filter_key (m : FlatMap) (p : String → Bool) :
    (m.filter (fun kv => p kv.1)).map Prod.fst = (m.map Prod.fst).filter p := by
  induction m with
  | nil => rfl
  | cons kv rest ih => by_cases h : p kv.1 <;> simp [h, ih]

/-- Claim C8: `removed` is the key sequence of the older mapping, in the older
mapping's iteration order, restricted to the keys absent from the newer one;
and the key sequences of `added` and `changed` are the key sequence of the
newer mapping, in the newer mapping's iteration order, restricted to the
fresh keys respectively to the common keys with unequal descriptors. -/
theorem compare_json_iteration_order (f1 f2 : FlatMap) (h2 : (keys f2).Nodup) :
    (compare_json f1 f2).2.2 = (keys f1).filter (fun k => !hasKey f2 k)
  ∧ keys (compare_json f1 f2).1 = (keys f2).filter (fun k => !hasKey f1 k)
  ∧ keys (compare_json f1 f2).2.1
      = (keys f2).filter (fun k => hasKey f1 k && decide (getVal f1 k ≠ getVal f2 k)) := by
  refine ⟨?_, ?_, ?_⟩
  · rw [compare_json, keys]
    exact map_fst_filter_key f1 (fun k => !hasKey f2 k)
  · rw [compare_json, keys, keys]
    exact map_fst_filter_key f2 (fun k => !hasKey f1 k)
  · have h0 : (compare_json f1 f2).2.1
        = f2.filter (fun kv => hasKey f1 kv.1 && decide (some kv.2 ≠ getVal f1 kv.1)) := rfl
    have hcg : f2.filter (fun kv => hasKey f1 kv.1 && decide (some kv.2 ≠ getVal f1 kv.1))
        = f2.filter (fun kv =>
            hasKey f1 kv.1 && decide (getVal f1 kv.1 ≠ getVal f2 kv.1)) := by
      apply List.filter_congr
      intro kv hkv
      have hv2 : getVal f2 kv.1 = some kv.2 := getVal_eq_some_of_mem h2 (by simpa using hkv)
      rw [hv2]
      congr 1
      exact decide_eq_decide.mpr ⟨fun h he => h he.symm, fun h he => h he.symm⟩
    rw [keys, h0, hcg, keys]
    exact map_fst_filter_key f2 (fun k => hasKey f1 k && decide (getVal f1 k ≠ getVal f2 k))

/-- Witness for C8: the order statement evaluated on concrete schemas whose
iteration orders disagree with lexicographic order, showing `removed` in the
older order and `added`/`changed` keys in the newer order. -/
theorem compare_json_iteration_order_witness :
    (compare_json
        [("b", sample_config), ("a", sample_config_2), ("c", sample_config)]
        [("c", sample_config_rich), ("z", sample_config), ("y", sample_config_2)]).2.2
      = (keys [("b", sample_config), ("a", sample_config_2), ("c", sample_config)]).filter
          (fun k => !hasKey
            [("c", sample_config_rich), ("z", sample_config), ("y", sample_config_2)] k)
  ∧ keys (compare_json
        [("b", sample_config), ("a", sample_config_2), ("c", sample_config)]
        [("c", sample_config_rich), ("z", sample_config), ("y", sample_config_2)]).1
      = (keys [("c", sample_config_rich), ("z", sample_config), ("y", sample_config_2)]).filter
          (fun k => !hasKey
            [("b", sample_config), ("a", sample_config_2), ("c", sample_config)] k)
  ∧ keys (compare_json
        [("b", sample_config), ("a", sample_config_2), ("c", sample_config)]
        [("c", sample_config_rich), ("z", sample_config), ("y", sample_config_2)]).2.1
      = (keys [("c", sample_config_rich), ("z", sample_config), ("y", sample_config_2)]).filter
          (fun k => hasKey
              [("b", sample_config), ("a", sample_config_2), ("c", sample_config)] k
            && decide
              (getVal [("b", sample_config), ("a", sample_config_2), ("c", sample_config)] k
                ≠ getVal
                  [("c", sample_config_rich), ("z", sample_config), ("y", sample_config_2)]
                  k)) :=
  compare_json_iteration_order
    [("b", sample_config), ("a", sample_config_2), ("c", sample_config)]
    [("c", sample_config_rich), ("z", sample_config), ("y", sample_config_2)]
    (by decide)

/-! ## String-length lemmas for the rendered report -/

theorem removed_key_list_length_gt :
    ∀ l : List String, l ≠ [] → l.length < (removed_key_list l).length := by
  intro l
  induction l with
  | nil => intro h; exact absurd rfl h
  | cons a t ih =>
    intro _
    cases t with
    | nil =>
      show 1 < (" - `" ++ a ++ "`").length
      rw [String.length_append, String.length_append]
      have h4 : (" - `" : String).length = 4 := rfl
      have h1 : ("`" : String).length = 1 := rfl
      omega
    | cons b t2 =>
      have hrec := ih (by simp)
      have hstep : removed_key_list (a :: b :: t2)
          = (" - `" ++ a ++ "`") ++ "\n" ++ removed_key_list (b :: t2) := rfl
      rw [hstep, String.length_append, String.length_append]
      have hn : ("\n" : String).length = 1 := rfl
      simp only [List.length_cons] at hrec ⊢
      omega

theorem str_join_cons_length_ge (sep x : String) (l : List String) :
    x.length ≤ (str_join sep (x :: l)).length := by
  cases l with
  | nil => exact Nat.le_refl _
  | cons y ys =>
    rw [show str_join sep (x :: y :: ys) = x ++ sep ++ str_join sep (y :: ys) from rfl,
        String.length_append, String.length_append]
    omega

/-- Claim C3: for every non-empty removed list, the number rendered in the
removed-keys header is the character length of the rendered bullet-list
string (the joined bullet lines), which is never the count of removed
keys. -/
theorem removed_header_counts_string_length (removed : List String) (h : removed ≠ []) :
    removed_keys_section removed
      = "Removed keys ($" ++ toString (removed_key_list removed).length ++ "):\n"
        ++ removed_key_list removed
  ∧ (removed_key_list removed).length ≠ removed.length :=
  ⟨rfl, ne_of_gt (removed_key_list_length_gt removed h)⟩

/-- Witness for C3: two removed keys render a bullet list of 15 characters,
so the header advertises 15, not 2. -/
theorem removed_header_counts_string_length_witness :
    (removed_keys_section ["a.b", "c"]
      = "Removed keys ($" ++ toString (removed_key_list ["a.b", "c"]).length ++ "):\n"
        ++ removed_key_list ["a.b", "c"]
    ∧ (removed_key_list ["a.b", "c"]).length ≠ 2)
    ∧ removed_keys_section ["a.b", "c"] = "Removed keys ($15):\n - `a.b`\n - `c`" :=
  ⟨removed_header_counts_string_length ["a.b", "c"] (by decide), by rfl⟩

/-- Claim C10: for every non-empty removed list, the rendered removed-keys
section is, character for character, the literal text `Removed keys ($`,
then the decimal digits of the bullet-list string length, then `):`, a
newline and the bullet list — in particular a literal dollar sign stands
immediately before the number, because the f-string `f'Removed keys
(\x24\x7b...\x7d)'` never interpolates the `\x24`. -/
theorem removed_header_dollar_sign (removed : List String) (h : removed ≠ []) :
    (removed_keys_section removed).data
      = ("Removed keys ($").data
        ++ (toString (removed_key_list removed).length).data
        ++ ("):\n").data
        ++ (removed_key_list removed).data := by
  simp [removed_keys_section, String.data_append]

/-- Witness for C10: one removed key, rendered section spelled out. -/
theorem removed_header_dollar_sign_witness :
    ((removed_keys_section ["a"]).data
      = ("Removed keys ($").data
        ++ (toString (removed_key_list ["a"]).length).data
        ++ ("):\n").data
        ++ (removed_key_list ["a"]).data)
    ∧ removed_keys_section ["a"] = "Removed keys ($6):\n - `a`" :=
  ⟨removed_header_dollar_sign ["a"] (by decide), by rfl⟩

/-! ## The two report scenarios of the entry point -/

/-- Claim C4: comparing a schema text against a byte-identical copy of itself
yields an empty unified diff and empty `added`/`changed`/`removed`, and the
program emits exactly the intro sentence followed by the literal
`No changes` line (the `if diff:` branch of `main` skips the key-level diff
entirely). -/
theorem identical_schemas_no_changes (jq : String → FlatMap)
    (repository_url configuration_file_path tag_from tag_to conf : String)
    (h : (keys (jq conf)).Nodup) :
    unified_diff (split_newlines conf) (split_newlines conf) tag_from tag_to = []
  ∧ compare_json (jq conf) (jq conf) = ([], [], [])
  ∧ main_output jq repository_url configuration_file_path tag_from tag_to conf conf
      = intro_sentence repository_url configuration_file_path tag_from tag_to
        ++ "\n\n" ++ "No changes" := by
  refine ⟨by rw [unified_diff, if_pos rfl], compare_json_self h, ?_⟩
  simp [main_output, unified_diff, str_join]

/-- Witness for C4: a concrete schema text diffed against itself produces the
`No changes` report. -/
theorem identical_schemas_no_changes_witness :
    unified_diff (split_newlines ("\x7b\x7d")) (split_newlines ("\x7b\x7d")) "1.0" "2.0" = []
  ∧ compare_json [("a.x", sample_config)] [("a.x", sample_config)] = ([], [], [])
  ∧ main_output (fun _ => [("a.x", sample_config)]) "https://r" "/s.json" "1.0" "2.0"
      ("\x7b\x7d") ("\x7b\x7d")
      = intro_sentence ("https://r") ("/s.json") ("1.0") ("2.0") ++ "\n\n" ++ "No changes" :=
  identical_schemas_no_changes (fun _ => [("a.x", sample_config)])
    "https://r" "/s.json" "1.0" "2.0" ("\x7b\x7d") (by decide)

/-- Claim C7: when the two raw texts differ line-wise but flatten to equal
mappings, the unified diff is non-empty, the key-level diff is computed and
yields empty `added`/`changed`/`removed`, and the report is the intro
sentence plus only the collapsible diff section — none of the
added/changed/removed key sections. -/
theorem whitespace_only_diff_report (jq : String → FlatMap)
    (repository_url configuration_file_path tag_from tag_to con1 con2 : String)
    (hne : split_newlines con1 ≠ split_newlines con2)
    (heq : jq con1 = jq con2)
    (hnd : (keys (jq con2)).Nodup) :
    str_join ("\n") (unified_diff (split_newlines con1) (split_newlines con2)
        tag_from tag_to) ≠ ""
  ∧ compare_json (jq con1) (jq con2) = ([], [], [])
  ∧ main_output jq repository_url configuration_file_path tag_from tag_to con1 con2
      = intro_sentence repository_url configuration_file_path tag_from tag_to
        ++ "\n\n"
        ++ markdown_collapsible_section ("All changes in schema")
            ("```diff\n"
              ++ str_join ("\n")
                  (unified_diff (split_newlines con1) (split_newlines con2) tag_from tag_to)
              ++ "\n```") := by
  have hdiff : unified_diff (split_newlines con1) (split_newlines con2) tag_from tag_to
      = ("--- " ++ tag_from) :: ("+++ " ++ tag_to)
        :: diffScript (split_newlines con1) (split_newlines con2) := by
    rw [unified_diff, if_neg hne]
  have hlen : 0 < (str_join ("\n") (unified_diff (split_newlines con1)
      (split_newlines con2) tag_from tag_to)).length := by
    rw [hdiff]
    have hge := str_join_cons_length_ge ("\n") ("--- " ++ tag_from)
      (("+++ " ++ tag_to) :: diffScript (split_newlines con1) (split_newlines con2))
    have h4 : ("--- " : String).length = 4 := rfl
    rw [String.length_append] at hge
    omega
  have hne' : str_join ("\n") (unified_diff (split_newlines con1)
      (split_newlines con2) tag_from tag_to) ≠ "" := by
    intro he
    rw [he] at hlen
    exact absurd hlen (by decide)
  have hcmp : compare_json (jq con1) (jq con2) = ([], [], []) := by
    rw [heq]
    exact compare_json_self hnd
  refine ⟨hne', hcmp, ?_⟩
  simp only [main_output, hcmp, if_neg hne']
  simp [str_join]

/-- Witness for C7: two schema texts differing only in whitespace, flattened
by a constant query result, produce the diff-only report. -/
theorem whitespace_only_diff_report_witness :
    str_join ("\n") (unified_diff (split_newlines ("\x7b\x7d")) (split_newlines ("\x7b \x7d"))
        "1.0" "2.0") ≠ ""
  ∧ compare_json [("a.x", sample_config)] [("a.x", sample_config)] = ([], [], [])
  ∧ main_output (fun _ => [("a.x", sample_config)]) "https://r" "/s.json" "1.0" "2.0"
      ("\x7b\x7d") ("\x7b \x7d")
      = intro_sentence ("https://r") ("/s.json") ("1.0") ("2.0")
        ++ "\n\n"
        ++ markdown_collapsible_section ("All changes in schema")
            ("```diff\n"
              ++ str_join ("\n")
                  (unified_diff (split_newlines ("\x7b\x7d")) (split_newlines ("\x7b \x7d"))
                    "1.0" "2.0")
              ++ "\n```") :=
  whitespace_only_diff_report (fun _ => [("a.x", sample_config)])
    "https://r" "/s.json" "1.0" "2.0" ("\x7b\x7d") ("\x7b \x7d")
    (by decide) rfl (by decide)

/-! ## Lemmas about the archive reader -/

theorem string_ne_empty_of_length_pos {s : String} (h : 0 < s.length) : s ≠ "" := by
  intro he
  rw [he] at h
  exact absurd h (by decide)

theorem takeWhile_all {p : Char → Bool} :
    ∀ l : List Char, (∀ c ∈ l, p c = true) → l.takeWhile p = l := by
  intro l
  induction l with
  | nil => intro _; rfl
  | cons a t ih =>
    intro hall
    have ha : p a = true := hall a (by simp)
    simp [List.takeWhile, ha, ih (fun c hc => hall c (List.mem_cons_of_mem a hc))]

theorem takeWhile_append_cons {p : Char → Bool} :
    ∀ (l1 : List Char) (x : Char) (l2 : List Char),
      (∀ c ∈ l1, p c = true) → p x = false → (l1 ++ x :: l2).takeWhile p = l1 := by
  intro l1
  induction l1 with
  | nil =>
    intro x l2 _ hx
    simp [List.takeWhile, hx]
  | cons a t ih =>
    intro x l2 hall hx
    have ha : p a = true := hall a (by simp)
    simp [List.takeWhile, ha,
      ih x l2 (fun c hc => hall c (List.mem_cons_of_mem a hc)) hx]

theorem first_component_append {d rest : String} (hd : '/' ∉ d.data) :
    first_component (d ++ "/" ++ rest) = d := by
  rw [first_component]
  have hdata : (d ++ "/" ++ rest).data = d.data ++ '/' :: rest.data := by
    simp [String.data_append]
  rw [hdata, takeWhile_append_cons d.data '/' rest.data ?_ (by decide)]
  · intro c hc
    have hcne : c ≠ '/' := fun he => hd (he ▸ hc)
    simp [hcne]

theorem first_component_of_no_slash {s : String} (h : '/' ∉ s.data) :
    first_component s = s := by
  rw [first_component, takeWhile_all s.data ?_]
  intro c hc
  have hcne : c ≠ '/' := fun he => h (he ▸ hc)
  simp [hcne]

theorem dedup_eq_singleton_of_all_eq {d : String} :
    ∀ l : List String, l ≠ [] → (∀ x ∈ l, x = d) → l.dedup = [d] := by
  intro l
  induction l with
  | nil => intro h _; exact absurd rfl h
  | cons a t ih =>
    intro _ hall
    have ha : a = d := hall a (by simp)
    cases t with
    | nil =>
      rw [List.dedup_cons_of_not_mem (by simp), List.dedup_nil, ha]
    | cons b t2 =>
      have hmem : a ∈ b :: t2 := by
        rw [ha, ← hall b (by simp)]
        exact List.mem_cons_self b t2
      rw [List.dedup_cons_of_mem hmem]
      exact ih (by simp) (fun x hx => hall x (List.mem_cons_of_mem a hx))

theorem target_path_of_parent_some {z : ZipFile} {d : String}
    (h : get_parent_directory z = some d) (path : String) :
    target_path z path = if d = "" then path else d ++ "/" ++ path := by
  rw [target_path, h]

theorem target_path_of_parent_none {z : ZipFile}
    (h : get_parent_directory z = none) (path : String) :
    target_path z path = path := by
  rw [target_path, h]

theorem read_file_from_zip_isSome_iff (z : ZipFile) (path : String) :
    (read_file_from_zip z path).isSome = true
      ↔ (target_path z path ∈ namelist z ∧ target_path z path ≠ "") := by
  simp only [read_file_from_zip]
  cases hf : (namelist z).find? (fun p => decide (target_path z path = p)) with
  | none =>
    rw [List.find?_eq_none] at hf
    simp only [Option.isSome_none, Bool.false_eq_true, false_iff]
    rintro ⟨hmem, _⟩
    exact hf _ hmem (by simp)
  | some filepath =>
    have hpf : target_path z path = filepath := by
      have hp1 := List.find?_some hf
      exact of_decide_eq_true hp1
    have hmem : filepath ∈ namelist z := List.mem_of_find?_eq_some hf
    rw [show (match some filepath with
        | none => none
        | some filepath => if filepath = "" then none else extract z filepath)
      = (if filepath = "" then none else extract z filepath) from rfl]
    by_cases hemp : filepath = ""
    · rw [if_pos hemp]
      simp only [Option.isSome_none, Bool.false_eq_true, false_iff]
      rintro ⟨_, hne⟩
      exact hne (hpf.trans hemp)
    · rw [if_neg hemp]
      have hex : (extract z filepath).isSome = true := by
        rw [extract]
        rcases List.mem_map.mp hmem with ⟨e, he, hfst⟩
        rw [Option.isSome_map']
        exact List.find?_isSome.mpr ⟨e, he, by simp [hfst]⟩
      simp only [hex, true_iff]
      exact ⟨by rw [hpf]; exact hmem, by rw [hpf]; exact hemp⟩

theorem target_path_ne_empty {z : ZipFile} {path : String} (h : path ≠ "") :
    target_path z path ≠ "" := by
  cases hp : get_parent_directory z with
  | none =>
    rw [target_path_of_parent_none hp]
    exact h
  | some d =>
    rw [target_path_of_parent_some hp]
    by_cases hd : d = ""
    · rw [if_pos hd]
      exact h
    · rw [if_neg hd]
      apply string_ne_empty_of_length_pos
      rw [String.length_append, String.length_append]
      have h1 : ("/" : String).length = 1 := rfl
      omega

theorem invalid_msg_ne_missing_msg (p : String) :
    ("Invalid JSON in translations file" : String)
      ≠ "Archive does not contain expected file " ++ p := by
  intro h
  have hl := congrArg String.length h
  rw [String.length_append] at hl
  have h1 : ("Invalid JSON in translations file" : String).length = 33 := by decide
  have h2 : ("Archive does not contain expected file " : String).length = 39 := by decide
  omega

/-- Claim C2: for a zip whose every entry name is prefixed by the single
common directory `d`, a lookup for logical path `P` targets exactly
`d/P` — it succeeds precisely when an entry with that exact name exists; for
a zip with no common prefix (no non-empty entries, or two entries with
different top-level components), the lookup targets exactly `P`. -/
theorem archive_unwrapping_lookup (z : ZipFile) (P d : String) (hP : P ≠ "") :
    ((d ≠ "" ∧ '/' ∉ d.data ∧ z.entries ≠ []
        ∧ (∀ n ∈ namelist z, ∃ rest, n = d ++ "/" ++ rest)) →
      target_path z P = d ++ "/" ++ P
        ∧ ((read_file_from_zip z P).isSome = true ↔ (d ++ "/" ++ P) ∈ namelist z))
  ∧ (((namelist z).filter (fun n => decide (n ≠ "")) = []
        ∨ ∃ n1 ∈ namelist z, n1 ≠ ""
            ∧ ∃ n2 ∈ namelist z, n2 ≠ "" ∧ first_component n1 ≠ first_component n2) →
      target_path z P = P
        ∧ ((read_file_from_zip z P).isSome = true ↔ P ∈ namelist z)) := by
  constructor
  · rintro ⟨hd, hslash, hent, hall⟩
    have hfilter : (namelist z).filter (fun n => decide (n ≠ "")) = namelist z := by
      rw [List.filter_eq_self]
      intro n hn
      rcases hall n hn with ⟨rest, rfl⟩
      simp only [decide_eq_true_eq]
      apply string_ne_empty_of_length_pos
      rw [String.length_append, String.length_append]
      have h1 : ("/" : String).length = 1 := rfl
      omega
    have hmap : ∀ x ∈ (namelist z).map first_component, x = d := by
      intro x hx
      rcases List.mem_map.mp hx with ⟨n, hn, rfl⟩
      rcases hall n hn with ⟨rest, rfl⟩
      exact first_component_append hslash
    have hmapne : (namelist z).map first_component ≠ [] := by
      simp [namelist, hent]
    have hparent : get_parent_directory z = some d := by
      simp only [get_parent_directory]
      rw [hfilter, dedup_eq_singleton_of_all_eq _ hmapne hmap]
    have htarget : target_path z P = d ++ "/" ++ P := by
      rw [target_path_of_parent_some hparent, if_neg hd]
    refine ⟨htarget, ?_⟩
    rw [read_file_from_zip_isSome_iff, htarget]
    constructor
    · exact fun h => h.1
    · intro h
      refine ⟨h, ?_⟩
      apply string_ne_empty_of_length_pos
      rw [String.length_append, String.length_append]
      have h1 : ("/" : String).length = 1 := rfl
      omega
  · intro hcase
    have hparent : get_parent_directory z = none := by
      simp only [get_parent_directory]
      rcases hcase with hempty | ⟨n1, hn1, hne1, n2, hn2, hne2, hfc⟩
      · rw [hempty, List.map_nil, List.dedup_nil]
      · have h1 : first_component n1
            ∈ (((namelist z).filter (fun n => decide (n ≠ ""))).map first_component).dedup := by
          rw [List.mem_dedup]
          exact List.mem_map.mpr ⟨n1, List.mem_filter.mpr ⟨hn1, by simp [hne1]⟩, rfl⟩
        have h2 : first_component n2
            ∈ (((namelist z).filter (fun n => decide (n ≠ ""))).map first_component).dedup := by
          rw [List.mem_dedup]
          exact List.mem_map.mpr ⟨n2, List.mem_filter.mpr ⟨hn2, by simp [hne2]⟩, rfl⟩
        cases hdd : (((namelist z).filter (fun n => decide (n ≠ ""))).map first_component).dedup
          with
        | nil => rfl
        | cons t ts =>
          cases ts with
          | nil =>
            rw [hdd] at h1 h2
            simp only [List.mem_singleton] at h1 h2
            exact absurd (h1.trans h2.symm) hfc
          | cons t2 rest => rfl
    have htarget : target_path z P = P := target_path_of_parent_none hparent P
    refine ⟨htarget, ?_⟩
    rw [read_file_from_zip_isSome_iff, htarget]
    exact ⟨fun h => h.1, fun h => ⟨h, hP⟩⟩

/-- Witness for C2: a wrapped archive (every entry under `repo-1.0/`) resolves
`package.json` through the prefixed name, and a flat two-entry archive
resolves it by exact name. -/
theorem archive_unwrapping_lookup_witness :
    (target_path ⟨[("repo-1.0/package.json", "A"), ("repo-1.0/README.md", "B")]⟩
        "package.json" = "repo-1.0" ++ "/" ++ "package.json"
      ∧ ((read_file_from_zip ⟨[("repo-1.0/package.json", "A"), ("repo-1.0/README.md", "B")]⟩
            "package.json").isSome = true
          ↔ ("repo-1.0" ++ "/" ++ "package.json")
              ∈ namelist ⟨[("repo-1.0/package.json", "A"), ("repo-1.0/README.md", "B")]⟩))
  ∧ (target_path ⟨[("package.json", "A"), ("README.md", "B")]⟩ "package.json"
        = "package.json"
      ∧ ((read_file_from_zip ⟨[("package.json", "A"), ("README.md", "B")]⟩
            "package.json").isSome = true
          ↔ "package.json" ∈ namelist ⟨[("package.json", "A"), ("README.md", "B")]⟩)) :=
  ⟨(archive_unwrapping_lookup ⟨[("repo-1.0/package.json", "A"), ("repo-1.0/README.md", "B")]⟩
      "package.json" "repo-1.0" (by decide)).1
      ⟨by decide, by decide, by decide, by
        intro n hn
        simp only [namelist, List.map_cons, List.map_nil, List.mem_cons,
          List.not_mem_nil, or_false] at hn
        rcases hn with rfl | rfl
        · exact ⟨"package.json", by decide⟩
        · exact ⟨"README.md", by decide⟩⟩,
   (archive_unwrapping_lookup ⟨[("package.json", "A"), ("README.md", "B")]⟩
      "package.json" "unused" (by decide)).2
      (Or.inr ⟨"package.json", by decide, by decide,
        "README.md", by decide, by decide, by decide⟩)⟩

/-- Claim C6: for a non-empty requested configuration path, the archive lookup
is an exact string match against the (optionally prefixed) target path — it
succeeds precisely when some entry name equals that target — and
`read_configuration_file` returns the fatal error naming the missing
configuration path exactly when no entry matches. -/
theorem exact_match_lookup_error (parse : String → Option (List (String × String)))
    (z : ZipFile) (path : String) (hpath : path ≠ "") :
    ((read_file_from_zip z path).isSome = true ↔ target_path z path ∈ namelist z)
  ∧ (read_configuration_file parse z path
       = Except.error ("Archive does not contain expected file " ++ path)
     ↔ target_path z path ∉ namelist z) := by
  have htne : target_path z path ≠ "" := target_path_ne_empty hpath
  constructor
  · rw [read_file_from_zip_isSome_iff]
    exact ⟨fun h => h.1, fun h => ⟨h, htne⟩⟩
  · cases hr : read_file_from_zip z path with
    | none =>
      have hnot : ¬ (target_path z path ∈ namelist z ∧ target_path z path ≠ "") := by
        rw [← read_file_from_zip_isSome_iff, hr]
        simp
      constructor
      · intro _ hmem
        exact hnot ⟨hmem, htne⟩
      · intro _
        simp only [read_configuration_file, hr]
    | some conf =>
      have hmem : target_path z path ∈ namelist z := by
        have hs : (read_file_from_zip z path).isSome = true := by rw [hr]; rfl
        exact ((read_file_from_zip_isSome_iff z path).mp hs).1
      have hne : read_configuration_file parse z path
          ≠ Except.error ("Archive does not contain expected file " ++ path) := by
        simp only [read_configuration_file, hr]
        cases ht : read_file_from_zip z (with_suffix_nls path) with
        | none => simp
        | some t =>
          by_cases hte : t = ""
          · simp [hte]
          · cases hp : parse t with
            | none =>
              simp only [if_neg hte, hp]
              intro h
              simp only [Except.error.injEq] at h
              exact invalid_msg_ne_missing_msg path h
            | some trj => simp [if_neg hte, hp]
      exact ⟨fun herr => absurd herr hne, fun hnot => absurd hmem hnot⟩

/-- Witness for C6: on a flat archive containing `package.json`, the lookup
succeeds exactly by name and the missing-file error does not occur. -/
theorem exact_match_lookup_error_witness :
    ((read_file_from_zip ⟨[("package.json", "A"), ("README.md", "B")]⟩
        "package.json").isSome = true
      ↔ target_path ⟨[("package.json", "A"), ("README.md", "B")]⟩ "package.json"
          ∈ namelist ⟨[("package.json", "A"), ("README.md", "B")]⟩)
  ∧ (read_configuration_file (fun _ => none)
        ⟨[("package.json", "A"), ("README.md", "B")]⟩ "package.json"
       = Except.error ("Archive does not contain expected file " ++ "package.json")
     ↔ target_path ⟨[("package.json", "A"), ("README.md", "B")]⟩ "package.json"
         ∉ namelist ⟨[("package.json", "A"), ("README.md", "B")]⟩) :=
  exact_match_lookup_error (fun _ => none)
    ⟨[("package.json", "A"), ("README.md", "B")]⟩ "package.json" (by decide)

/-- Claim C9: a zip whose only entry is a single root-level file named exactly
the target path `P` still has `P` reported as a common parent, so the reader
looks up `P/P`, finds nothing, and `read_configuration_file` fails — even
though an entry named exactly `P` exists. -/
theorem single_root_file_lookup_fails
    (parse : String → Option (List (String × String)))
    (P content : String) (hP : P ≠ "") (hslash : '/' ∉ P.data) :
    get_parent_directory ⟨[(P, content)]⟩ = some P
  ∧ target_path ⟨[(P, content)]⟩ P = P ++ "/" ++ P
  ∧ P ∈ namelist ⟨[(P, content)]⟩
  ∧ read_file_from_zip ⟨[(P, content)]⟩ P = none
  ∧ read_configuration_file parse ⟨[(P, content)]⟩ P
      = Except.error ("Archive does not contain expected file " ++ P) := by
  have hfc : first_component P = P := first_component_of_no_slash hslash
  have hparent : get_parent_directory ⟨[(P, content)]⟩ = some P := by
    simp only [get_parent_directory, namelist, List.map_cons, List.map_nil]
    rw [List.filter_cons, if_pos (by simp [hP]), List.filter_nil, List.map_cons,
      List.map_nil, hfc, List.dedup_cons_of_not_mem (by simp), List.dedup_nil]
  have htarget : target_path ⟨[(P, content)]⟩ P = P ++ "/" ++ P := by
    rw [target_path_of_parent_some hparent, if_neg hP]
  have hne2 : P ++ "/" ++ P ≠ P := by
    intro he
    have hl := congrArg String.length he
    rw [String.length_append, String.length_append] at hl
    have h1 : ("/" : String).length = 1 := rfl
    omega
  have hread : read_file_from_zip ⟨[(P, content)]⟩ P = none := by
    simp only [read_file_from_zip, htarget]
    rw [show namelist ⟨[(P, content)]⟩ = [P] from rfl,
      List.find?_cons_of_neg _ (by simp [hne2]), List.find?_nil]
  refine ⟨hparent, htarget, by simp [namelist], hread, ?_⟩
  simp only [read_configuration_file, hread]

/-- Witness for C9: the archive holding only a root-level `package.json` makes
the reader fail to find `package.json`. -/
theorem single_root_file_lookup_fails_witness :
    get_parent_directory ⟨[("package.json", "\x7b\x7d")]⟩ = some ("package.json")
  ∧ target_path ⟨[("package.json", "\x7b\x7d")]⟩ "package.json"
      = "package.json" ++ "/" ++ "package.json"
  ∧ "package.json" ∈ namelist ⟨[("package.json", "\x7b\x7d")]⟩
  ∧ read_file_from_zip ⟨[("package.json", "\x7b\x7d")]⟩ "package.json" = none
  ∧ read_configuration_file (fun _ => none) ⟨[("package.json", "\x7b\x7d")]⟩ "package.json"
      = Except.error ("Archive does not contain expected file " ++ "package.json") :=
  single_root_file_lookup_fails (fun _ => none) "package.json" ("\x7b\x7d")
    (by decide) (by decide)

/-- Claim C5: when the primary configuration file is found, a sibling
translations file (the primary path with its extension replaced by
`.nls.json`) that exists, is non-empty and parses as a flat string-to-string
mapping makes the reader return the primary text with every `"%key%"`
placeholder replaced by the JSON-escaped serialization of the mapped string;
an absent translations file is skipped silently and the primary text is
returned unchanged. -/
theorem translation_substitution (parse : String → Option (List (String × String)))
    (z : ZipFile) (configuration_path conf t : String) (trj : List (String × String))
    (hconf : read_file_from_zip z configuration_path = some conf) :
    (read_file_from_zip z (with_suffix_nls configuration_path) = none →
      read_configuration_file parse z configuration_path = Except.ok conf)
  ∧ (read_file_from_zip z (with_suffix_nls configuration_path) = some t → t ≠ "" →
      parse t = some trj →
      read_configuration_file parse z configuration_path
        = Except.ok (substitute_translations conf trj)) := by
  constructor
  · intro ht
    simp only [read_configuration_file, hconf, ht]
  · intro ht hte hp
    simp only [read_configuration_file, hconf, ht, if_neg hte, hp]

/-- Witness for C5: without a translations entry the primary text is returned
unchanged; with one mapping `greeting` to a string containing a quote, the
quoted `"%greeting%"` placeholder is replaced by the escaped JSON string. -/
theorem translation_substitution_witness :
    read_configuration_file (fun _ => none)
        ⟨[("pkg/package.json", "\x7b\"title\": \"%greeting%\"\x7d")]⟩ "package.json"
      = Except.ok ("\x7b\"title\": \"%greeting%\"\x7d")
  ∧ read_configuration_file
        (fun s => if s = ("\x7b\"greeting\": \"He said \\\"hi\\\"\"\x7d")
          then some [("greeting", "He said \"hi\"")] else none)
        ⟨[("pkg/package.json", "\x7b\"title\": \"%greeting%\"\x7d"),
          ("pkg/package.nls.json", "\x7b\"greeting\": \"He said \\\"hi\\\"\"\x7d")]⟩
        "package.json"
      = Except.ok ("\x7b\"title\": \"He said \\\"hi\\\"\"\x7d") :=
  ⟨(translation_substitution (fun _ => none)
      ⟨[("pkg/package.json", "\x7b\"title\": \"%greeting%\"\x7d")]⟩ "package.json"
      ("\x7b\"title\": \"%greeting%\"\x7d") "" [] (by rfl)).1 (by rfl),
   ((translation_substitution
      (fun s => if s = ("\x7b\"greeting\": \"He said \\\"hi\\\"\"\x7d")
        then some [("greeting", "He said \"hi\"")] else none)
      ⟨[("pkg/package.json", "\x7b\"title\": \"%greeting%\"\x7d"),
        ("pkg/package.nls.json", "\x7b\"greeting\": \"He said \\\"hi\\\"\"\x7d")]⟩
      "package.json" ("\x7b\"title\": \"%greeting%\"\x7d")
      ("\x7b\"greeting\": \"He said \\\"hi\\\"\"\x7d") [("greeting", "He said \"hi\"")]
      (by rfl)).2 (by rfl) (by decide) (by rfl)).trans (by rfl)⟩

end ChangedSettings
